import Mathlib

/-!
Verification of the script interpreter in `run_commands.py` (Arduino I2C
UART bridge command runner).

Python strings are modelled as Lean `String` (a wrapper around `List Char`,
matching Python's sequence-of-code-points model).  Every Python string
primitive used by the source (`strip`, `strip('"')`, `split(sep, 1)`,
`replace`, `startswith`, `endswith`, `upper`, slicing, `in`) is translated
explicitly below, so that all reasoning happens on `List Char`.

The regular-expression engine (`re` module) and the serial transport
(`pyserial`) are external collaborators of the repository, not part of its
source; they are modelled as parameters (a match oracle, a list of reply
lines, and an abstract connection object).
-/

namespace RunCommands

/-- Characters removed by Python `str.strip()` (ASCII whitespace). -/
def isPySpace (c : Char) : Bool :=
  c == ' ' || c == '\t' || c == '\n' || c == '\r' || c == '\x0b' || c == '\x0c'

/-- Right strip: remove trailing characters satisfying `isPySpace`. -/
def rstripList (l : List Char) : List Char :=
  (l.reverse.dropWhile isPySpace).reverse

/-- Python `str.strip()` on the underlying character list. -/
def pyStripList (l : List Char) : List Char :=
  rstripList (l.dropWhile isPySpace)

/-- Python `str.strip()`. -/
def pyStrip (s : String) : String := ⟨pyStripList s.data⟩

/-- Python `str.strip('"')` on the underlying list: remove ALL leading and
trailing double-quote characters. -/
def stripQuoteList (l : List Char) : List Char :=
  ((l.dropWhile (fun c => c == '"')).reverse.dropWhile (fun c => c == '"')).reverse

/-- Python `str.strip('"')`. -/
def stripQuotes (s : String) : String := ⟨stripQuoteList s.data⟩

/-- Boolean list-prefix test (Python `str.startswith` on code points). -/
def isPrefixB : List Char → List Char → Bool
  | [], _ => true
  | _ :: _, [] => false
  | a :: as, b :: bs => a == b && isPrefixB as bs

/-- Python `s.startswith(pre)`. -/
def pyStartsWith (s pre : String) : Bool := isPrefixB pre.data s.data

/-- Python `s.endswith(suf)`. -/
def pyEndsWith (s suf : String) : Bool := isPrefixB suf.data.reverse s.data.reverse

/-- Python `c in s` membership test. -/
def containsB (l : List Char) (c : Char) : Bool :=
  match l with
  | [] => false
  | x :: xs => x == c || containsB xs c

/-- Python `c in s` on strings. -/
def pyContains (s : String) (c : Char) : Bool := containsB s.data c

/-- Python `s.upper()` (ASCII case mapping, which covers the `EXPECT`
keyword test of the source). -/
def pyUpper (s : String) : String := ⟨s.data.map Char.toUpper⟩

/-- Python slicing `s[n:]` by code points. -/
def pyDrop (s : String) (n : Nat) : String := ⟨s.data.drop n⟩

/-- Python `s.split(sep, 1)`: the pieces before and after the first
occurrence of `sep` (if `sep` is absent the whole list is the first piece). -/
def splitFirst (sep : Char) : List Char → List Char × List Char
  | [] => ([], [])
  | c :: rest =>
    if c = sep then ([], rest)
    else
      let p := splitFirst sep rest
      (c :: p.1, p.2)

/-- One pass of Python `str.replace` for a non-empty pattern, with explicit
fuel (structural recursion so that concrete inputs evaluate): leftmost,
non-overlapping occurrences of `pat` are replaced by `rep`; replaced text is
not re-scanned for `pat`. -/
def pyReplaceF (pat rep : List Char) : Nat → List Char → List Char
  | _, [] => []
  | 0, l => l
  | n + 1, c :: rest =>
    if isPrefixB pat (c :: rest) then
      rep ++ pyReplaceF pat rep n (rest.drop (pat.length - 1))
    else
      c :: pyReplaceF pat rep n rest

/-- One pass of Python `str.replace` for a non-empty pattern (the fuel,
the list length, is always sufficient). -/
def pyReplaceGo (pat rep l : List Char) : List Char :=
  pyReplaceF pat rep l.length l

/-- Python `s.replace(pat, rep)`.  For the empty pattern Python inserts
`rep` at every character boundary (before each character and at the end). -/
def pyReplace (s pat rep : List Char) : List Char :=
  match pat with
  | [] => rep ++ s.flatMap (fun c => c :: rep)
  | _ :: _ => pyReplaceGo pat rep s

/-- Python `s.replace(pat, rep)` on strings. -/
def sReplace (s pat rep : String) : String := ⟨pyReplace s.data pat.data rep.data⟩

/-- Splitting companion of `pyReplaceF`: the maximal pat-free pieces of the
list between the leftmost non-overlapping occurrences of `pat`.  Returned as
(head piece, later pieces) so the piece list is never empty. -/
def pySplitF (pat : List Char) : Nat → List Char → List Char × List (List Char)
  | _, [] => ([], [])
  | 0, l => (l, [])
  | n + 1, c :: rest =>
    if isPrefixB pat (c :: rest) then
      let p := pySplitF pat n (rest.drop (pat.length - 1))
      ([], p.1 :: p.2)
    else
      let p := pySplitF pat n rest
      (c :: p.1, p.2)

/-- Splitting companion of `pyReplaceGo`. -/
def pySplitGo (pat l : List Char) : List Char × List (List Char) :=
  pySplitF pat l.length l

/-- The pieces of `l` between leftmost non-overlapping occurrences of `pat`. -/
def pySplit (pat l : List Char) : List (List Char) :=
  let p := pySplitGo pat l
  p.1 :: p.2

theorem pyReplaceF_nil (pat rep : List Char) (n : Nat) :
    pyReplaceF pat rep n [] = [] := by
  cases n <;> rfl

theorem pySplitF_nil (pat : List Char) (n : Nat) :
    pySplitF pat n [] = ([], []) := by
  cases n <;> rfl

theorem pyReplaceF_fuel (pat rep : List Char) :
    ∀ (n m : Nat) (l : List Char), l.length ≤ n → l.length ≤ m →
      pyReplaceF pat rep n l = pyReplaceF pat rep m l := by
  intro n
  induction n with
  | zero =>
    intro m l hn _
    have hnil : l = [] := List.eq_nil_of_length_eq_zero (Nat.le_zero.mp hn)
    subst hnil
    rw [pyReplaceF_nil, pyReplaceF_nil]
  | succ n ih =>
    intro m l hn hm
    cases l with
    | nil => rw [pyReplaceF_nil, pyReplaceF_nil]
    | cons c rest =>
      cases m with
      | zero => simp at hm
      | succ m' =>
        have hn' : rest.length ≤ n := by
          simp only [List.length_cons] at hn; omega
        have hm' : rest.length ≤ m' := by
          simp only [List.length_cons] at hm; omega
        have hd : (rest.drop (pat.length - 1)).length ≤ rest.length := by
          rw [List.length_drop]; omega
        simp only [pyReplaceF]
        by_cases hpre : isPrefixB pat (c :: rest) = true
        · rw [if_pos hpre, if_pos hpre,
            ih m' _ (le_trans hd hn') (le_trans hd hm')]
        · rw [if_neg hpre, if_neg hpre, ih m' rest hn' hm']

theorem pySplitF_fuel (pat : List Char) :
    ∀ (n m : Nat) (l : List Char), l.length ≤ n → l.length ≤ m →
      pySplitF pat n l = pySplitF pat m l := by
  intro n
  induction n with
  | zero =>
    intro m l hn _
    have hnil : l = [] := List.eq_nil_of_length_eq_zero (Nat.le_zero.mp hn)
    subst hnil
    rw [pySplitF_nil, pySplitF_nil]
  | succ n ih =>
    intro m l hn hm
    cases l with
    | nil => rw [pySplitF_nil, pySplitF_nil]
    | cons c rest =>
      cases m with
      | zero => simp at hm
      | succ m' =>
        have hn' : rest.length ≤ n := by
          simp only [List.length_cons] at hn; omega
        have hm' : rest.length ≤ m' := by
          simp only [List.length_cons] at hm; omega
        have hd : (rest.drop (pat.length - 1)).length ≤ rest.length := by
          rw [List.length_drop]; omega
        simp only [pySplitF]
        by_cases hpre : isPrefixB pat (c :: rest) = true
        · rw [if_pos hpre, if_pos hpre,
            ih m' _ (le_trans hd hn') (le_trans hd hm')]
        · rw [if_neg hpre, if_neg hpre, ih m' rest hn' hm']

/-- Python dict assignment `d[k] = v`: an existing key keeps its insertion
position and has its value updated; a new key is appended at the end. -/
def dictSet (d : List (String × String)) (k v : String) :
    List (String × String) :=
  if d.any (fun p => p.1 == k) then
    d.map (fun p => if p.1 == k then (k, v) else p)
  else
    d ++ [(k, v)]

/-- Python dict lookup `d.get(k)`. -/
def dictGet (d : List (String × String)) (k : String) : Option String :=
  match d.find? (fun p => p.1 == k) with
  | some p => some p.2
  | none => none

/-- `I2CCommandRunner.parse_line` (run_commands.py:42-56): strip the line;
a blank line yields no record; otherwise the command is the trimmed text
before the first `#` and the comment is the trimmed text after it. -/
def parse_line (line : String) : Option (String × String) :=
  let line := pyStrip line
  if line = "" then none
  else if pyContains line '#' then
    let p := splitFirst '#' line.data
    some (pyStrip ⟨p.1⟩, pyStrip ⟨p.2⟩)
  else
    some (line, "")

/-- `I2CCommandRunner.handle_variable_assignment` (run_commands.py:58-73):
returns whether the command was consumed as an assignment, together with the
updated variable store.  The name/value split is on the first `=`; both
sides are stripped; a value that starts and ends with `"` loses its first
and last character (Python `var_value[1:-1]`). -/
def handle_variable_assignment (vars : List (String × String))
    (command : String) : Bool × List (String × String) :=
  if !(pyContains command '=') then
    (false, vars)
  else
    let p := splitFirst '=' command.data
    let var_name := pyStrip ⟨p.1⟩
    let var_value := pyStrip ⟨p.2⟩
    let var_value :=
      if pyStartsWith var_value "\"" && pyEndsWith var_value "\"" then
        ⟨(var_value.data.drop 1).dropLast⟩
      else var_value
    (true, dictSet vars var_name var_value)

/-- `I2CCommandRunner.substitute_variables` (run_commands.py:75-79): iterate
the variable store in insertion order, replacing every occurrence of each
name by its value with Python `str.replace`. -/
def substitute_variables (vars : List (String × String))
    (command : String) : String :=
  vars.foldl (fun cmd p => sReplace cmd p.1 p.2) command

/-- Result of Python `re.match(pattern, string)`: a match anchored at
position 0, no match, or `re.error` (invalid pattern).  The `re` module is
external to the repository, so it enters the model as an oracle of this
type. -/
inductive ReMatch
  | matched
  | nomatch
  | invalid
deriving DecidableEq

/-- Observable outcome of processing one command line. -/
inductive StepAction
  | skip
  | assigned
  | expectOk
  | expectFailMismatch
  | expectFailPattern
  | sent (cmd : String)
deriving DecidableEq

/-- Exit behaviour of a step: `handle_expect_command` calls `sys.exit(1)`
both on a mismatch and on an invalid pattern (run_commands.py:96,101);
every other action lets the run continue. -/
def actionExitCode : StepAction → Option Nat
  | StepAction.expectFailMismatch => some 1
  | StepAction.expectFailPattern => some 1
  | _ => none

/-- The pattern computed by `handle_expect_command` (run_commands.py:83-87):
`command[7:]`, stripped, then `strip('"')`, then variable substitution. -/
def expectPattern (vars : List (String × String)) (command : String) :
    String :=
  substitute_variables vars (stripQuotes (pyStrip (pyDrop command 7)))

/-- `I2CCommandRunner.handle_expect_command` (run_commands.py:81-101),
parameterised by the `re.match` oracle `rm`. -/
def handle_expect_command (rm : String → String → ReMatch)
    (vars : List (String × String)) (last_response command : String) :
    StepAction :=
  let expected := expectPattern vars command
  match rm expected last_response with
  | ReMatch.matched => StepAction.expectOk
  | ReMatch.nomatch => StepAction.expectFailMismatch
  | ReMatch.invalid => StepAction.expectFailPattern

/-- State of the response-drain loop of `send_command`
(run_commands.py:117-127): the retained response plus the lines echoed with
`<---` and the lines routed to debug logging. -/
structure DrainState where
  last_response : String
  echoed : List String
  debugged : List String
deriving DecidableEq

/-- One iteration of the drain loop (run_commands.py:120-127): strip the
reply; ignore it if empty; route it to debug logging if it starts with
`[DBG]`; otherwise echo it and retain it as the last response. -/
def drainStep (st : DrainState) (raw : String) : DrainState :=
  let response := pyStrip raw
  if response = "" then st
  else if pyStartsWith response "[DBG]" then
    { st with debugged := st.debugged ++ [response] }
  else
    { st with echoed := st.echoed ++ [response], last_response := response }

/-- The whole drain of `send_command`: `self.last_response = ""` followed by
the read loop over the available reply lines (run_commands.py:118-127). -/
def send_command_drain (replies : List String) : DrainState :=
  replies.foldl drainStep { last_response := "", echoed := [], debugged := [] }

/-- The mutable fields of `I2CCommandRunner` touched by the line loop
(run_commands.py:25-28). -/
structure RunState where
  line_number : Nat
  executed_count : Nat
  vars : List (String × String)
  last_response : String
deriving DecidableEq

/-- The fields as initialised by `__init__` (run_commands.py:25-28). -/
def initialRunState : RunState :=
  { line_number := 0, executed_count := 0, vars := [], last_response := "" }

/-- `I2CCommandRunner.send_command` (run_commands.py:103-127): substitute
variables, write the command (returned as second component), bump the
executed counter, clear and re-fill the retained response from the drained
replies. -/
def send_command (st : RunState) (replies : List String) (command : String) :
    RunState × String :=
  let cmd := substitute_variables st.vars command
  let dr := send_command_drain replies
  ({ st with
      executed_count := st.executed_count + 1,
      last_response := dr.last_response }, cmd)

/-- The dispatcher of `execute_commands` for one non-blank command
(run_commands.py:152-162): assignment first, then the EXPECT keyword test,
then the device send. -/
def dispatch_command (rm : String → String → ReMatch)
    (replies : List String) (st : RunState) (command : String) :
    RunState × StepAction :=
  let h := handle_variable_assignment st.vars command
  if h.1 then
    ({ st with vars := h.2 }, StepAction.assigned)
  else if pyStartsWith (pyUpper command) "EXPECT " then
    (st, handle_expect_command rm st.vars st.last_response command)
  else
    let r := send_command st replies command
    (r.1, StepAction.sent r.2)

/-- One iteration of the line loop of `execute_commands`
(run_commands.py:136-162): bump the line counter, parse, skip blank and
comment-only lines, otherwise dispatch. -/
def execStep (rm : String → String → ReMatch) (replies : List String)
    (st : RunState) (line : String) : RunState × StepAction :=
  let st := { st with line_number := st.line_number + 1 }
  match parse_line line with
  | none => (st, StepAction.skip)
  | some (command, _comment) =>
    if command = "" then (st, StepAction.skip)
    else dispatch_command rm replies st command

/-- Exceptions that can escape the `try` block of `execute_commands`
(run_commands.py:166-174): `FileNotFoundError`, `serial.SerialException`,
any other `Exception`, and `SystemExit` raised by `sys.exit` inside
`handle_expect_command` (which is NOT a subclass of `Exception`). -/
inductive Exn
  | fileNotFound
  | serialExn
  | otherExn
  | systemExit (code : Nat)
deriving DecidableEq

/-- The serial connection object: whether it is open, and how many times
`close()` has been called on it. -/
structure SerialConn where
  is_open : Bool
  closes : Nat
deriving DecidableEq

/-- `serial.Serial.close()`. -/
def closeConn (c : SerialConn) : SerialConn :=
  { is_open := false, closes := c.closes + 1 }

/-- `I2CCommandRunner.disconnect` (run_commands.py:36-40): close the
connection only when `self.ser` is set and open. -/
def disconnect (ser : Option SerialConn) : Option SerialConn :=
  match ser with
  | some c => if c.is_open then some (closeConn c) else some c
  | none => none

/-- The `except` clauses of `execute_commands` (run_commands.py:166-174):
`FileNotFoundError`, `SerialException` and `Exception` are each caught and
converted into `sys.exit(1)` (a `SystemExit`); a `SystemExit` raised inside
the `try` block is not caught by any clause and escapes unchanged. -/
def handleExcept : Option Exn → Option Exn
  | none => none
  | some Exn.fileNotFound => some (Exn.systemExit 1)
  | some Exn.serialExn => some (Exn.systemExit 1)
  | some Exn.otherExn => some (Exn.systemExit 1)
  | some (Exn.systemExit n) => some (Exn.systemExit n)

/-- Process exit status determined by the exception escaping
`execute_commands` (`none` means the function returns and the process later
exits 0). -/
def exitCodeOfExn : Option Exn → Option Nat
  | some (Exn.systemExit n) => some n
  | some _ => some 1
  | none => none

/-- The line loop of `execute_commands` over a whole script: each line is
processed by `execStep`; an EXPECT failure raises `SystemExit 1` and stops
the loop.  `replies` gives the reply lines drained after the n-th device
command. -/
def runLines (rm : String → String → ReMatch)
    (replies : Nat → List String) :
    RunState → List String → RunState × Option Exn
  | st, [] => (st, none)
  | st, line :: rest =>
    let r := execStep rm (replies st.executed_count) st line
    match actionExitCode r.2 with
    | some n => (r.1, some (Exn.systemExit n))
    | none => runLines rm replies r.1 rest

/-- `I2CCommandRunner.execute_commands` (run_commands.py:129-176), viewed
through its resource discipline: a `try` block that first calls `connect`
(which either sets `self.ser` to an open connection or raises
`SerialException`) and then runs the body, whose outcome `bodyExn` is
either normal completion or one of the exceptions of `Exn`; then the
`except` clauses; then the `finally: self.disconnect()`.  Returns the final
connection object and the process exit status. -/
def execute_commands (connectOk : Bool) (bodyExn : Option Exn) :
    Option SerialConn × Option Nat :=
  let tryResult : Option SerialConn × Option Exn :=
    if connectOk then
      (some { is_open := true, closes := 0 }, bodyExn)
    else
      (none, some Exn.serialExn)
  let escaped := handleExcept tryResult.2
  (disconnect tryResult.1, exitCodeOfExn escaped)

/-! ### Basic lemmas about the string primitives -/

theorem mk_data (l : List Char) : (⟨l⟩ : String).data = l := rfl

theorem mk_inj (l m : List Char) : (⟨l⟩ : String) = ⟨m⟩ ↔ l = m :=
  ⟨fun h => congrArg String.data h, fun h => congrArg String.mk h⟩

theorem mk_nil_eq : (⟨([] : List Char)⟩ : String) = "" := rfl

theorem isPrefixB_iff (a l : List Char) :
    isPrefixB a l = true ↔ ∃ t, l = a ++ t := by
  induction a generalizing l with
  | nil => simp [isPrefixB]
  | cons x xs ih =>
    cases l with
    | nil =>
      simp [isPrefixB]
    | cons y ys =>
      simp only [isPrefixB, Bool.and_eq_true, beq_iff_eq, ih, List.cons_append,
        List.cons.injEq]
      constructor
      · rintro ⟨hxy, t, ht⟩
        exact ⟨t, hxy.symm, ht⟩
      · rintro ⟨t, hxy, ht⟩
        exact ⟨hxy.symm, t, ht⟩

theorem containsB_iff (l : List Char) (c : Char) :
    containsB l c = true ↔ c ∈ l := by
  induction l with
  | nil => simp [containsB]
  | cons x xs ih =>
    simp only [containsB, Bool.or_eq_true, beq_iff_eq, ih, List.mem_cons]
    constructor
    · rintro (h | h)
      · exact Or.inl h.symm
      · exact Or.inr h
    · rintro (h | h)
      · exact Or.inl h.symm
      · exact Or.inr h

theorem splitFirst_append (sep : Char) (a b : List Char) (ha : sep ∉ a) :
    splitFirst sep (a ++ sep :: b) = (a, b) := by
  induction a with
  | nil => simp [splitFirst]
  | cons c a' ih =>
    have hc : ¬ c = sep := fun h => ha (h ▸ List.mem_cons_self c a')
    have ha' : sep ∉ a' := fun h => ha (List.mem_cons_of_mem c h)
    simp [splitFirst, hc, ih ha']

theorem splitFirst_fst (sep : Char) (l : List Char) :
    (splitFirst sep l).1 = l.takeWhile (fun c => !(c == sep)) := by
  induction l with
  | nil => simp [splitFirst]
  | cons c rest ih =>
    by_cases h : c = sep
    · simp [splitFirst, h, List.takeWhile_cons]
    · simp [splitFirst, h, List.takeWhile_cons, ih]

theorem dropWhile_all {p : Char → Bool} {l : List Char}
    (h : ∀ c ∈ l, p c = true) : l.dropWhile p = [] := by
  induction l with
  | nil => rfl
  | cons c rest ih =>
    have hc := h c (List.mem_cons_self c rest)
    simp only [List.dropWhile_cons, hc, if_true]
    exact ih (fun x hx => h x (List.mem_cons_of_mem c hx))

theorem takeWhile_all {p : Char → Bool} {l : List Char}
    (h : ∀ c ∈ l, p c = true) : l.takeWhile p = l := by
  induction l with
  | nil => rfl
  | cons c rest ih =>
    have hc := h c (List.mem_cons_self c rest)
    simp only [List.takeWhile_cons, hc, if_true]
    exact congrArg (c :: ·) (ih (fun x hx => h x (List.mem_cons_of_mem c hx)))

theorem dropWhile_head_false {p : Char → Bool} {l : List Char}
    {x : Char} {xs : List Char} (h : l.dropWhile p = x :: xs) :
    p x = false := by
  induction l with
  | nil => simp at h
  | cons c rest ih =>
    by_cases hc : p c = true
    · rw [List.dropWhile_cons, if_pos hc] at h
      exact ih h
    · rw [List.dropWhile_cons, if_neg hc] at h
      cases h
      exact Bool.eq_false_iff.mpr hc

theorem dropWhile_append_all {p : Char → Bool} {a : List Char}
    (r : List Char) (h : ∀ c ∈ a, p c = true) :
    (a ++ r).dropWhile p = r.dropWhile p := by
  induction a with
  | nil => rfl
  | cons c a' ih =>
    have hc := h c (List.mem_cons_self c a')
    simp only [List.cons_append, List.dropWhile_cons, hc, if_true]
    exact ih (fun x hx => h x (List.mem_cons_of_mem c hx))

theorem dropWhile_append_case {p : Char → Bool} (xs ys : List Char) :
    (xs ++ ys).dropWhile p =
      if (xs.dropWhile p).isEmpty then ys.dropWhile p
      else xs.dropWhile p ++ ys := by
  induction xs with
  | nil => simp
  | cons c xs' ih =>
    by_cases hc : p c = true
    · simp only [List.cons_append, List.dropWhile_cons, hc, if_true]
      exact ih
    · simp only [List.cons_append, List.dropWhile_cons, hc]
      simp [List.isEmpty]

theorem rstrip_cons_of_not_space {c : Char} (t : List Char)
    (hc : isPySpace c = false) :
    rstripList (c :: t) = c :: rstripList t := by
  unfold rstripList
  rw [List.reverse_cons, dropWhile_append_case]
  by_cases h : (t.reverse.dropWhile isPySpace).isEmpty
  · simp only [h, if_true]
    have : (t.reverse.dropWhile isPySpace) = [] := by
      cases hh : t.reverse.dropWhile isPySpace
      · rfl
      · rw [hh] at h; simp [List.isEmpty] at h
    simp [this, List.dropWhile, hc]
  · simp only [h, if_false]
    simp

theorem pyStripList_all_space {l : List Char}
    (h : ∀ c ∈ l, isPySpace c = true) : pyStripList l = [] := by
  unfold pyStripList rstripList
  rw [dropWhile_all h]
  rfl

theorem pyStripList_nil : pyStripList [] = [] := rfl

/-! ### Drain-loop characterisation (spec side) -/

/-- The trimmed, non-empty, non-debug reply lines of a drain window, in
order: these are the lines the spec says are echoed. -/
def nonDebugLines : List String → List String
  | [] => []
  | r :: rest =>
    let resp := pyStrip r
    if resp = "" then nonDebugLines rest
    else if pyStartsWith resp "[DBG]" then nonDebugLines rest
    else resp :: nonDebugLines rest

/-- The trimmed, non-empty reply lines carrying the `[DBG]` marker, in
order: these are the lines the spec says go to debug logging. -/
def debugLines : List String → List String
  | [] => []
  | r :: rest =>
    let resp := pyStrip r
    if resp = "" then debugLines rest
    else if pyStartsWith resp "[DBG]" then resp :: debugLines rest
    else debugLines rest

/-- The last element of a list, or a default for the empty list. -/
def lastOrDefault : List String → String → String
  | [], d => d
  | a :: t, _ => lastOrDefault t a

theorem foldl_drainStep (replies : List String) (st : DrainState) :
    replies.foldl drainStep st =
      { last_response := lastOrDefault (nonDebugLines replies) st.last_response,
        echoed := st.echoed ++ nonDebugLines replies,
        debugged := st.debugged ++ debugLines replies } := by
  induction replies generalizing st with
  | nil => simp [nonDebugLines, debugLines, lastOrDefault]
  | cons r rest ih =>
    simp only [List.foldl_cons]
    rw [ih]
    by_cases h1 : pyStrip r = ""
    · simp [drainStep, nonDebugLines, debugLines, h1]
    · by_cases h2 : pyStartsWith (pyStrip r) "[DBG]" = true
      · simp [drainStep, nonDebugLines, debugLines, h1, h2, List.append_assoc]
      · simp [drainStep, nonDebugLines, debugLines, lastOrDefault, h1, h2,
          List.append_assoc]

theorem nonDebugLines_not_debug (replies : List String) :
    ∀ e ∈ nonDebugLines replies, pyStartsWith e "[DBG]" = false := by
  induction replies with
  | nil => intro e he; simp [nonDebugLines] at he
  | cons r rest ih =>
    intro e he
    simp only [nonDebugLines] at he
    by_cases h1 : pyStrip r = ""
    · rw [if_pos h1] at he
      exact ih e he
    · rw [if_neg h1] at he
      by_cases h2 : pyStartsWith (pyStrip r) "[DBG]" = true
      · rw [if_pos h2] at he
        exact ih e he
      · rw [if_neg h2] at he
        rcases List.mem_cons.mp he with he | he
        · rw [he]
          exact Bool.eq_false_iff.mpr h2
        · exact ih e he

theorem lastOrDefault_prop {P : String → Prop} :
    ∀ (l : List String) (d : String), P d → (∀ x ∈ l, P x) →
      P (lastOrDefault l d)
  | [], _, hd, _ => hd
  | a :: t, _, _, hl =>
    lastOrDefault_prop t a (hl a (List.mem_cons_self a t))
      (fun x hx => hl x (List.mem_cons_of_mem a hx))

/-! ### Dictionary lemmas -/

theorem find_map_dictSet (k v : String) (t : List (String × String))
    (ht : t.any (fun p => p.1 == k) = true) :
    (t.map (fun p => if p.1 == k then (k, v) else p)).find?
      (fun p => p.1 == k) = some (k, v) := by
  induction t with
  | nil => simp at ht
  | cons q t' ih =>
    by_cases hq : (q.1 == k) = true
    · simp only [List.map_cons, hq, if_true]
      rw [List.find?_cons_of_pos]
      simp
    · simp only [List.any_cons, Bool.or_eq_true] at ht
      rcases ht with ht | ht
      · exact absurd ht hq
      · simp only [List.map_cons, hq, if_false]
        rw [List.find?_cons_of_neg _ (by simpa using hq)]
        exact ih ht

theorem find_append_new (k v : String) (t : List (String × String))
    (ht : t.any (fun p => p.1 == k) = false) :
    (t ++ [(k, v)]).find? (fun p => p.1 == k) = some (k, v) := by
  induction t with
  | nil =>
    simp only [List.nil_append]
    rw [List.find?_cons_of_pos]
    simp
  | cons q t' ih =>
    simp only [List.any_cons, Bool.or_eq_false_iff] at ht
    simp only [List.cons_append]
    rw [List.find?_cons_of_neg _ (by simp [ht.1])]
    exact ih ht.2

theorem dictGet_dictSet (d : List (String × String)) (k v : String) :
    dictGet (dictSet d k v) k = some v := by
  unfold dictGet dictSet
  by_cases hd : d.any (fun p => p.1 == k) = true
  · rw [if_pos hd, find_map_dictSet k v d hd]
  · rw [if_neg hd, find_append_new k v d (Bool.eq_false_iff.mpr hd)]

theorem dictSet_pairs (d : List (String × String)) (k v : String) :
    ∀ p ∈ dictSet d k v, p.1 = k → p.2 = v := by
  intro p hp hk
  unfold dictSet at hp
  by_cases hd : d.any (fun q => q.1 == k) = true
  · rw [if_pos hd] at hp
    rcases List.mem_map.mp hp with ⟨q, hq, hfq⟩
    by_cases hqk : (q.1 == k) = true
    · rw [if_pos hqk] at hfq
      rw [← hfq]
    · rw [if_neg hqk] at hfq
      rw [← hfq] at hk
      exact absurd (beq_iff_eq.mpr hk) hqk
  · rw [if_neg hd] at hp
    rcases List.mem_append.mp hp with h | h
    · have hall : ∀ q ∈ d, ¬ (q.1 == k) = true := by
        intro q hq hqk
        exact hd (List.any_eq_true.mpr ⟨q, hq, hqk⟩)
      exact absurd (beq_iff_eq.mpr hk) (hall p h)
    · simp only [List.mem_singleton] at h
      rw [h]

/-! ### Quote stripping (`strip('"')`) -/

theorem stripQuoteList_wrap (i j : Nat) (mid : List Char)
    (h1 : mid.head? ≠ some '"') (h2 : mid.getLast? ≠ some '"') :
    stripQuoteList
      (List.replicate i '"' ++ mid ++ List.replicate j '"') = mid := by
  have hrep : ∀ n : Nat, ∀ c ∈ List.replicate n '"', (c == '"') = true := by
    intro n c hc
    rw [List.eq_of_mem_replicate hc]
    exact beq_self_eq_true _
  unfold stripQuoteList
  cases mid with
  | nil =>
    simp only [List.append_nil]
    rw [dropWhile_append_all _ (hrep i), dropWhile_all (hrep j)]
    rfl
  | cons m ms =>
    have hm : (m == '"') = false := by
      simp only [List.head?_cons, ne_eq, Option.some.injEq] at h1
      exact beq_eq_false_iff_ne.mpr h1
    rw [List.append_assoc, dropWhile_append_all _ (hrep i)]
    have step1 : ((m :: ms) ++ List.replicate j '"').dropWhile
        (fun c => c == '"') = (m :: ms) ++ List.replicate j '"' := by
      simp only [List.cons_append, List.dropWhile_cons, hm]
      simp
    rw [step1, List.reverse_append, List.reverse_replicate]
    rw [dropWhile_append_all _ (hrep j)]
    have hlast : ((m :: ms).reverse).head? ≠ some '"' := by
      rw [List.head?_reverse]
      exact h2
    cases hrev : (m :: ms).reverse with
    | nil =>
      have : (m :: ms).length = 0 := by
        rw [← List.length_reverse, hrev]; rfl
      simp at this
    | cons x xs =>
      have hx : (x == '"') = false := by
        rw [hrev] at hlast
        simp only [List.head?_cons, ne_eq, Option.some.injEq] at hlast
        exact beq_eq_false_iff_ne.mpr hlast
      rw [show List.dropWhile (fun c => c == '"') (x :: xs) = x :: xs by
        simp [List.dropWhile_cons, hx]]
      rw [← hrev, List.reverse_reverse]

/-! ### Characterisation of Python `str.replace` (single pass, no re-scan) -/

/-- Join a list of pieces with a separator between adjacent pieces. -/
def joinWith (sep : List Char) : List (List Char) → List Char
  | [] => []
  | [a] => a
  | a :: b :: t => a ++ sep ++ joinWith sep (b :: t)

theorem joinWith_cons_head (sep : List Char) (c : Char) (a : List Char)
    (t : List (List Char)) :
    joinWith sep ((c :: a) :: t) = c :: joinWith sep (a :: t) := by
  cases t with
  | nil => rfl
  | cons b t' => simp [joinWith, List.cons_append]

/-- `pat` occurs somewhere inside `l` as a contiguous substring. -/
def occursIn (pat l : List Char) : Prop := ∃ s t, l = s ++ pat ++ t

theorem not_occursIn_nil {pat : List Char} (hpat : pat ≠ []) :
    ¬ occursIn pat [] := by
  rintro ⟨s, t, h⟩
  rcases List.append_eq_nil.mp h.symm with ⟨h1, h2⟩
  rcases List.append_eq_nil.mp h1 with ⟨-, h3⟩
  exact hpat h3

theorem pySplitGo_cons_pos (pat : List Char) (c : Char) (rest : List Char)
    (hpre : isPrefixB pat (c :: rest) = true) :
    pySplitGo pat (c :: rest) =
      ([], (pySplitGo pat (rest.drop (pat.length - 1))).1 ::
        (pySplitGo pat (rest.drop (pat.length - 1))).2) := by
  have hd : (rest.drop (pat.length - 1)).length ≤ rest.length := by
    rw [List.length_drop]; omega
  show pySplitF pat (c :: rest).length (c :: rest) = _
  rw [List.length_cons]
  simp only [pySplitF]
  rw [if_pos hpre,
    pySplitF_fuel pat rest.length (rest.drop (pat.length - 1)).length _ hd
      (le_refl _)]
  rfl

theorem pySplitGo_cons_neg (pat : List Char) (c : Char) (rest : List Char)
    (hpre : ¬ isPrefixB pat (c :: rest) = true) :
    pySplitGo pat (c :: rest) =
      (c :: (pySplitGo pat rest).1, (pySplitGo pat rest).2) := by
  show pySplitF pat (c :: rest).length (c :: rest) = _
  rw [List.length_cons]
  simp only [pySplitF]
  rw [if_neg hpre]
  rfl

theorem pySplitGo_nil (pat : List Char) : pySplitGo pat [] = ([], []) := rfl

theorem pyReplaceGo_cons_pos (pat rep : List Char) (c : Char)
    (rest : List Char) (hpre : isPrefixB pat (c :: rest) = true) :
    pyReplaceGo pat rep (c :: rest) =
      rep ++ pyReplaceGo pat rep (rest.drop (pat.length - 1)) := by
  have hd : (rest.drop (pat.length - 1)).length ≤ rest.length := by
    rw [List.length_drop]; omega
  show pyReplaceF pat rep (c :: rest).length (c :: rest) = _
  rw [List.length_cons]
  simp only [pyReplaceF]
  rw [if_pos hpre,
    pyReplaceF_fuel pat rep rest.length (rest.drop (pat.length - 1)).length _
      hd (le_refl _)]
  rfl

theorem pyReplaceGo_cons_neg (pat rep : List Char) (c : Char)
    (rest : List Char) (hpre : ¬ isPrefixB pat (c :: rest) = true) :
    pyReplaceGo pat rep (c :: rest) = c :: pyReplaceGo pat rep rest := by
  show pyReplaceF pat rep (c :: rest).length (c :: rest) = _
  rw [List.length_cons]
  simp only [pyReplaceF]
  rw [if_neg hpre]
  rfl

theorem pyReplaceGo_nil (pat rep : List Char) :
    pyReplaceGo pat rep [] = [] := rfl

theorem replaceGo_eq_joinWith (pat rep : List Char) :
    ∀ (n : Nat) (l : List Char), l.length ≤ n →
      pyReplaceGo pat rep l = joinWith rep (pySplit pat l) := by
  intro n
  induction n with
  | zero =>
    intro l hl
    have hnil : l = [] := List.eq_nil_of_length_eq_zero (Nat.le_zero.mp hl)
    subst hnil
    rw [pyReplaceGo_nil]
    simp [pySplit, pySplitGo_nil, joinWith]
  | succ n ih =>
    intro l hl
    cases l with
    | nil =>
      rw [pyReplaceGo_nil]
      simp [pySplit, pySplitGo_nil, joinWith]
    | cons c rest =>
      have hrest : rest.length ≤ n := by
        simp only [List.length_cons] at hl; omega
      have hdrop : (rest.drop (pat.length - 1)).length ≤ n := by
        have := List.length_drop (pat.length - 1) rest
        omega
      by_cases hpre : isPrefixB pat (c :: rest) = true
      · rw [pyReplaceGo_cons_pos pat rep c rest hpre]
        rw [ih _ hdrop]
        simp only [pySplit, pySplitGo_cons_pos pat c rest hpre]
        simp [joinWith]
      · rw [pyReplaceGo_cons_neg pat rep c rest hpre]
        rw [ih _ hrest]
        simp only [pySplit, pySplitGo_cons_neg pat c rest hpre]
        rw [joinWith_cons_head]

theorem pyReplace_eq_joinWith (pat rep l : List Char) (hpat : pat ≠ []) :
    pyReplace l pat rep = joinWith rep (pySplit pat l) := by
  cases pat with
  | nil => exact absurd rfl hpat
  | cons p ps =>
    exact replaceGo_eq_joinWith (p :: ps) rep l.length l (le_refl _)

theorem pySplitGo_fst_prefix (pat : List Char) :
    ∀ (n : Nat) (l : List Char), l.length ≤ n →
      ∃ t, l = (pySplitGo pat l).1 ++ t := by
  intro n
  induction n with
  | zero =>
    intro l hl
    have hnil : l = [] := List.eq_nil_of_length_eq_zero (Nat.le_zero.mp hl)
    subst hnil
    exact ⟨[], by rw [pySplitGo_nil]; simp⟩
  | succ n ih =>
    intro l hl
    cases l with
    | nil => exact ⟨[], by rw [pySplitGo_nil]; simp⟩
    | cons c rest =>
      have hrest : rest.length ≤ n := by
        simp only [List.length_cons] at hl; omega
      by_cases hpre : isPrefixB pat (c :: rest) = true
      · rw [pySplitGo_cons_pos pat c rest hpre]
        exact ⟨c :: rest, rfl⟩
      · rw [pySplitGo_cons_neg pat c rest hpre]
        rcases ih rest hrest with ⟨t, ht⟩
        exact ⟨t, by rw [List.cons_append, ← ht]⟩

theorem pySplit_pieces_free (pat : List Char) (hpat : pat ≠ []) :
    ∀ (n : Nat) (l : List Char), l.length ≤ n →
      ∀ piece ∈ pySplit pat l, ¬ occursIn pat piece := by
  intro n
  induction n with
  | zero =>
    intro l hl piece hpiece
    have hnil : l = [] := List.eq_nil_of_length_eq_zero (Nat.le_zero.mp hl)
    subst hnil
    simp only [pySplit, pySplitGo_nil, List.mem_singleton] at hpiece
    rw [hpiece]
    exact not_occursIn_nil hpat
  | succ n ih =>
    intro l hl piece hpiece
    cases l with
    | nil =>
      simp only [pySplit, pySplitGo_nil, List.mem_singleton] at hpiece
      rw [hpiece]
      exact not_occursIn_nil hpat
    | cons c rest =>
      have hrest : rest.length ≤ n := by
        simp only [List.length_cons] at hl; omega
      have hdrop : (rest.drop (pat.length - 1)).length ≤ n := by
        have := List.length_drop (pat.length - 1) rest
        omega
      by_cases hpre : isPrefixB pat (c :: rest) = true
      · simp only [pySplit, pySplitGo_cons_pos pat c rest hpre,
          List.mem_cons] at hpiece
        rcases hpiece with hp | hp
        · rw [hp]; exact not_occursIn_nil hpat
        · exact ih _ hdrop piece (by simpa [pySplit] using hp)
      · simp only [pySplit, pySplitGo_cons_neg pat c rest hpre,
          List.mem_cons] at hpiece
        rcases hpiece with hp | hp
        · rintro ⟨s, t, heq⟩
          rw [hp] at heq
          cases s with
          | nil =>
            rcases pySplitGo_fst_prefix pat rest.length rest (le_refl _) with
              ⟨u, hu⟩
            simp only [List.nil_append] at heq
            have hfull : c :: rest = pat ++ (t ++ u) := by
              rw [show c :: rest = (c :: (pySplitGo pat rest).1) ++ u by
                  rw [List.cons_append, ← hu],
                heq, List.append_assoc]
            exact hpre ((isPrefixB_iff pat (c :: rest)).mpr ⟨t ++ u, hfull⟩)
          | cons s0 s' =>
            simp only [List.cons_append, List.cons.injEq] at heq
            have hocc : occursIn pat (pySplitGo pat rest).1 :=
              ⟨s', t, heq.2⟩
            exact ih _ hrest (pySplitGo pat rest).1
              (by simp [pySplit]) hocc
        · exact ih _ hrest piece (by simp [pySplit, hp])

theorem pyReplace_self (l rep : List Char) (hl : l ≠ []) :
    pyReplace l l rep = rep := by
  cases l with
  | nil => exact absurd rfl hl
  | cons c rest =>
    have hpre : isPrefixB (c :: rest) (c :: rest) = true :=
      (isPrefixB_iff _ _).mpr ⟨[], by simp⟩
    show pyReplaceGo (c :: rest) rep (c :: rest) = rep
    rw [pyReplaceGo_cons_pos _ rep c rest hpre]
    have hd : rest.drop ((c :: rest).length - 1) = [] := by
      simp only [List.length_cons, Nat.add_sub_cancel]
      exact List.drop_length rest
    rw [hd, pyReplaceGo_nil]
    simp

theorem sReplace_self (s rep : String) (hs : s.data ≠ []) :
    sReplace s s rep = rep := by
  unfold sReplace
  rw [pyReplace_self s.data rep.data hs]

theorem substitute_variables_pair (n1 v1 n2 v2 cmd : String) :
    substitute_variables [(n1, v1), (n2, v2)] cmd =
      sReplace (sReplace cmd n1 v1) n2 v2 := rfl

theorem dropLast_append_singleton (l : List Char) (x : Char) :
    (l ++ [x]).dropLast = l := by
  simp

/-- Reduction of the assignment handler on a command whose first `=` splits
it as `a ++ '=' :: b`. -/
theorem hva_eq (vars : List (String × String)) (a b : List Char)
    (ha : '=' ∉ a) :
    handle_variable_assignment vars ⟨a ++ '=' :: b⟩ =
      (true, dictSet vars (pyStrip ⟨a⟩)
        (if pyStartsWith (pyStrip ⟨b⟩) "\"" && pyEndsWith (pyStrip ⟨b⟩) "\""
         then ⟨((pyStrip ⟨b⟩).data.drop 1).dropLast⟩
         else pyStrip ⟨b⟩)) := by
  have hc : pyContains (⟨a ++ '=' :: b⟩ : String) '=' = true :=
    (containsB_iff _ _).mpr (List.mem_append.mpr (Or.inr (List.mem_cons_self _ _)))
  have hsplit : splitFirst '=' (a ++ '=' :: b) = (a, b) :=
    splitFirst_append '=' a b ha
  simp only [handle_variable_assignment, hc, Bool.not_true, Bool.false_eq_true,
    if_false, mk_data, hsplit]

/-! ### The claims -/

/-- C1: for every retained last response and EXPECT directive, with the
pattern obtained by slicing off `EXPECT `, trimming, quote-stripping and
variable substitution: if the regex oracle reports an anchored-at-0 match,
the handler reports success and the run continues (no exit); if it reports
an invalid pattern, the handler terminates the run with exit status 1
(pattern error); if it reports no match, the handler terminates the run
with exit status 1 (mismatch). -/
theorem C1_expect_outcomes (rm : String → String → ReMatch)
    (vars : List (String × String)) (last_response command : String) :
    (rm (expectPattern vars command) last_response = ReMatch.matched →
      handle_expect_command rm vars last_response command =
        StepAction.expectOk ∧
      actionExitCode (handle_expect_command rm vars last_response command) =
        none) ∧
    (rm (expectPattern vars command) last_response = ReMatch.invalid →
      handle_expect_command rm vars last_response command =
        StepAction.expectFailPattern ∧
      actionExitCode (handle_expect_command rm vars last_response command) =
        some 1) ∧
    (rm (expectPattern vars command) last_response = ReMatch.nomatch →
      handle_expect_command rm vars last_response command =
        StepAction.expectFailMismatch ∧
      actionExitCode (handle_expect_command rm vars last_response command) =
        some 1) := by
  refine ⟨fun h => ⟨?_, ?_⟩, fun h => ⟨?_, ?_⟩, fun h => ⟨?_, ?_⟩⟩ <;>
    simp only [handle_expect_command] <;> rw [h] <;> rfl

/-- A concrete regex oracle agreeing with Python `re.match` on the inputs
used by the witnesses: the pattern `[` is an invalid regex; otherwise a
pattern matches exactly the responses it is equal to. -/
def rmDemo : String → String → ReMatch := fun p r =>
  if p = "[" then ReMatch.invalid
  else if p = r then ReMatch.matched
  else ReMatch.nomatch

theorem C1_expect_outcomes_witness :
    rmDemo (expectPattern [] "EXPECT \"OK\"") "OK" = ReMatch.matched ∧
    handle_expect_command rmDemo [] "OK" "EXPECT \"OK\"" =
      StepAction.expectOk ∧
    rmDemo (expectPattern [] "EXPECT [") "OK" = ReMatch.invalid ∧
    handle_expect_command rmDemo [] "OK" "EXPECT [" =
      StepAction.expectFailPattern ∧
    actionExitCode (handle_expect_command rmDemo [] "OK" "EXPECT [") =
      some 1 ∧
    rmDemo (expectPattern [] "EXPECT \"OK\"") "FAIL" = ReMatch.nomatch ∧
    handle_expect_command rmDemo [] "FAIL" "EXPECT \"OK\"" =
      StepAction.expectFailMismatch ∧
    actionExitCode (handle_expect_command rmDemo [] "FAIL" "EXPECT \"OK\"") =
      some 1 := by
  refine ⟨by decide,
    ((C1_expect_outcomes rmDemo [] "OK" "EXPECT \"OK\"").1 (by decide)).1,
    by decide,
    ((C1_expect_outcomes rmDemo [] "OK" "EXPECT [").2.1 (by decide)).1,
    ((C1_expect_outcomes rmDemo [] "OK" "EXPECT [").2.1 (by decide)).2,
    by decide,
    ((C1_expect_outcomes rmDemo [] "FAIL" "EXPECT \"OK\"").2.2 (by decide)).1,
    ((C1_expect_outcomes rmDemo [] "FAIL" "EXPECT \"OK\"").2.2 (by decide)).2⟩

/-- C2 counterexample: with the store holding A ↦ B and then B ↦ X (in
insertion order), the claim predicts that the later variable name `B`
embedded in the substituted value of the earlier variable `A` is NOT
replaced, i.e. result `B`; the code substitutes it, yielding `X`. -/
theorem C2_single_pass_cex :
    substitute_variables [("A", "B"), ("B", "X")] "A" = "X" ∧
    ("X" : String) ≠ "B" := ⟨by decide, by decide⟩

/-- C2 amended: substitution iterates the variables in insertion order;
each variable's own replacement is a genuine single left-to-right pass (the
output is exactly the pattern-free pieces of the input joined by the
replacement text, so text inserted for a variable is never re-scanned for
that same variable), but each later variable is applied to the output of
the earlier ones, so a later variable's name embedded in an earlier
variable's substituted value IS replaced. -/
theorem C2_single_pass_amended :
    (∀ (s pat rep : String), pat.data ≠ [] →
      (sReplace s pat rep).data =
        joinWith rep.data (pySplit pat.data s.data) ∧
      ∀ piece ∈ pySplit pat.data s.data, ¬ occursIn pat.data piece) ∧
    (∀ (n1 n2 v2 : String), n1.data ≠ [] → n2.data ≠ [] →
      substitute_variables [(n1, n2), (n2, v2)] n1 = v2) := by
  refine ⟨fun s pat rep hpat => ⟨?_, ?_⟩, fun n1 n2 v2 h1 h2 => ?_⟩
  · show pyReplace s.data pat.data rep.data = _
    exact pyReplace_eq_joinWith pat.data rep.data s.data hpat
  · exact fun piece hp =>
      pySplit_pieces_free pat.data hpat s.data.length s.data (le_refl _)
        piece hp
  · rw [substitute_variables_pair, sReplace_self n1 n2 h1,
      sReplace_self n2 v2 h2]

theorem C2_single_pass_amended_witness :
    ("a" : String).data ≠ [] ∧
    (sReplace "banana" "a" "o").data =
      joinWith ("o" : String).data (pySplit "a".data "banana".data) ∧
    ("P" : String).data ≠ [] ∧ ("Q" : String).data ≠ [] ∧
    substitute_variables [("P", "Q"), ("Q", "R")] "P" = "R" :=
  ⟨by decide,
    (C2_single_pass_amended.1 "banana" "a" "o" (by decide)).1,
    by decide, by decide,
    C2_single_pass_amended.2 "P" "Q" "R" (by decide) (by decide)⟩

/-- C3 counterexample: on the directive `EXPECT ""x""` the claim predicts
stripping exactly one quote pair (never more), which would give the pattern
`"x"`; the code (Python `strip('"')`) removes all surrounding quotes and
yields `x`. -/
theorem C3_expect_quote_cex :
    expectPattern [] "EXPECT \"\"x\"\"" = "x" ∧
    ("x" : String) ≠ "\"x\"" := ⟨by decide, by decide⟩

/-- C3 amended: the text after the `EXPECT ` keyword is trimmed and then
ALL leading and trailing double-quote characters are removed (Python
`strip('"')` semantics — a single wrapping pair is removed, but so are
repeated quotes and one-sided quotes), before variable substitution is
applied to the resulting pattern. -/
theorem C3_expect_quote_amended (vars : List (String × String))
    (rest : String) (i j : Nat) (mid : List Char)
    (h1 : mid.head? ≠ some '"') (h2 : mid.getLast? ≠ some '"')
    (h3 : pyStripList rest.data =
      List.replicate i '"' ++ mid ++ List.replicate j '"') :
    expectPattern vars ⟨"EXPECT ".data ++ rest.data⟩ =
      substitute_variables vars ⟨mid⟩ := by
  unfold expectPattern
  congr 1
  have hdrop : pyDrop (⟨"EXPECT ".data ++ rest.data⟩ : String) 7 =
      ⟨rest.data⟩ := by
    unfold pyDrop
    rw [mk_data]
    have h7 : ("EXPECT " : String).data.length = 7 := by decide
    rw [← h7, List.drop_left]
  rw [hdrop]
  show stripQuotes ⟨pyStripList rest.data⟩ = ⟨mid⟩
  unfold stripQuotes
  rw [mk_data, h3, stripQuoteList_wrap i j mid h1 h2]

theorem C3_expect_quote_amended_witness :
    (("OK" : String).data.head? ≠ some '"') ∧
    (("OK" : String).data.getLast? ≠ some '"') ∧
    pyStripList (" \"OK\" " : String).data =
      List.replicate 1 '"' ++ ("OK" : String).data ++ List.replicate 1 '"' ∧
    expectPattern [] ⟨"EXPECT ".data ++ (" \"OK\" " : String).data⟩ =
      substitute_variables [] ⟨("OK" : String).data⟩ :=
  ⟨by decide, by decide, by decide,
    C3_expect_quote_amended [] " \"OK\" " 1 1 "OK".data (by decide)
      (by decide) (by decide)⟩

/-- C4: any non-blank command containing `=` is consumed by the assignment
handler: the dispatcher classifies it as an assignment — the assignment
test runs before the EXPECT keyword test and before the device send — so
the command is never routed to the expect handler and never sent to the
transport (the resulting action is `assigned`, not `sent` and not an
expect outcome), even if it starts with `EXPECT ` or was meant as a device
command such as `SET A=1`. -/
theorem C4_assignment_precedence (rm : String → String → ReMatch)
    (replies : List String) (st : RunState) (command : String)
    (h : pyContains command '=' = true) :
    dispatch_command rm replies st command =
      ({ st with vars := (handle_variable_assignment st.vars command).2 },
        StepAction.assigned) := by
  have hfst : (handle_variable_assignment st.vars command).1 = true := by
    unfold handle_variable_assignment
    simp only [h, Bool.not_true, Bool.false_eq_true, if_false]
  unfold dispatch_command
  simp only [hfst, if_true]

theorem C4_assignment_precedence_witness :
    pyContains "SET A=1" '=' = true ∧
    dispatch_command rmDemo [] initialRunState "SET A=1" =
      ({ initialRunState with
          vars := (handle_variable_assignment initialRunState.vars
            "SET A=1").2 },
        StepAction.assigned) ∧
    pyContains "EXPECT A=1" '=' = true ∧
    dispatch_command rmDemo [] initialRunState "EXPECT A=1" =
      ({ initialRunState with
          vars := (handle_variable_assignment initialRunState.vars
            "EXPECT A=1").2 },
        StepAction.assigned) :=
  ⟨by decide,
    C4_assignment_precedence rmDemo [] initialRunState "SET A=1" (by decide),
    by decide,
    C4_assignment_precedence rmDemo [] initialRunState "EXPECT A=1"
      (by decide)⟩

/-- C5: in an assignment the first `=` separates the name from the value
(the value may itself contain `=`), both sides are trimmed, a value wrapped
in a pair of double quotes loses exactly one leading and one trailing
quote, a value not starting with a quote is stored unchanged, the store
update overwrites any previous value of that name (all entries for the name
carry the newest value, so every later substitution reads the most recent
value — last assignment wins). -/
theorem C5_assignment_semantics (vars : List (String × String))
    (a b : List Char) (ha : '=' ∉ a) :
    (handle_variable_assignment vars ⟨a ++ '=' :: b⟩).1 = true ∧
    (∀ mid : List Char, pyStripList b = '"' :: mid ++ ['"'] →
      (handle_variable_assignment vars ⟨a ++ '=' :: b⟩).2 =
        dictSet vars (pyStrip ⟨a⟩) ⟨mid⟩) ∧
    ((pyStripList b).head? ≠ some '"' →
      (handle_variable_assignment vars ⟨a ++ '=' :: b⟩).2 =
        dictSet vars (pyStrip ⟨a⟩) ⟨pyStripList b⟩) ∧
    (∀ k v, dictGet (dictSet vars k v) k = some v) ∧
    (∀ (d : List (String × String)) (k v1 v2 : String),
      ∀ p ∈ dictSet (dictSet d k v1) k v2, p.1 = k → p.2 = v2) := by
  rw [hva_eq vars a b ha]
  refine ⟨rfl, ?_, ?_, fun k v => dictGet_dictSet vars k v,
    fun d k v1 v2 p hp hk => dictSet_pairs (dictSet d k v1) k v2 p hp hk⟩
  · intro mid hmid
    have hb : pyStrip (⟨b⟩ : String) = ⟨'"' :: mid ++ ['"']⟩ := by
      unfold pyStrip
      rw [mk_data, hmid]
    rw [hb]
    have hstart : pyStartsWith (⟨'"' :: mid ++ ['"']⟩ : String) "\"" = true := by
      unfold pyStartsWith
      rw [mk_data]
      exact (isPrefixB_iff _ _).mpr ⟨mid ++ ['"'], rfl⟩
    have hend : pyEndsWith (⟨'"' :: mid ++ ['"']⟩ : String) "\"" = true := by
      unfold pyEndsWith
      rw [mk_data]
      apply (isPrefixB_iff _ _).mpr
      refine ⟨(('"' :: mid)).reverse, ?_⟩
      rw [show ('"' :: mid ++ ['"']) = ('"' :: mid) ++ ['"'] by simp,
        List.reverse_append]
    rw [hstart, hend]
    simp only [Bool.and_self, if_true, mk_data]
    rw [show ('"' :: mid ++ ['"']).drop 1 = mid ++ ['"'] by rfl,
      dropLast_append_singleton]
  · intro hhead
    have hfalse : pyStartsWith (pyStrip ⟨b⟩) "\"" = false := by
      unfold pyStartsWith pyStrip
      rw [mk_data]
      cases hb : pyStripList b with
      | nil => rfl
      | cons x xs =>
        have hx : x ≠ '"' := by
          rw [hb] at hhead
          simp only [List.head?_cons, ne_eq, Option.some.injEq] at hhead
          exact hhead
        show isPrefixB ['"'] (x :: xs) = false
        simp only [isPrefixB, Bool.and_eq_false_iff]
        exact Or.inl (beq_eq_false_iff_ne.mpr (fun he => hx he.symm))
    rw [hfalse]
    simp only [Bool.false_and, Bool.false_eq_true, if_false]
    rfl

theorem C5_assignment_semantics_witness :
    ('=' ∉ (['X'] : List Char)) ∧
    (handle_variable_assignment []
      ⟨['X'] ++ '=' :: (" 1=2 " : String).data⟩).1 = true ∧
    ((pyStripList (" 1=2 " : String).data).head? ≠ some '"') ∧
    (handle_variable_assignment []
      ⟨['X'] ++ '=' :: (" 1=2 " : String).data⟩).2 =
      dictSet [] (pyStrip ⟨['X']⟩) ⟨pyStripList (" 1=2 " : String).data⟩ ∧
    (handle_variable_assignment []
      ⟨['Q'] ++ '=' :: ("\"10\"" : String).data⟩).2 =
      dictSet [] (pyStrip ⟨['Q']⟩) ⟨("10" : String).data⟩ :=
  ⟨by decide,
    (C5_assignment_semantics [] ['X'] " 1=2 ".data (by decide)).1,
    by decide,
    (C5_assignment_semantics [] ['X'] " 1=2 ".data (by decide)).2.2.1
      (by decide),
    (C5_assignment_semantics [] ['Q'] "\"10\"".data (by decide)).2.1
      "10".data (by decide)⟩

/-- C6: for every drain window after a device command send, reply lines
whose trimmed text starts with `[DBG]` go to debug logging only — they are
never echoed and never become the retained response — while every other
non-empty trimmed line is echoed (in order) and overwrites the retained
response, so after the drain the retained response is the last non-debug
non-empty trimmed line (or the empty string if there was none). -/
theorem C6_drain_routing (replies : List String) :
    (send_command_drain replies).echoed = nonDebugLines replies ∧
    (send_command_drain replies).last_response =
      lastOrDefault (nonDebugLines replies) "" ∧
    (send_command_drain replies).debugged = debugLines replies ∧
    (∀ e ∈ (send_command_drain replies).echoed,
      pyStartsWith e "[DBG]" = false) ∧
    pyStartsWith (send_command_drain replies).last_response "[DBG]" =
      false := by
  have h := foldl_drainStep replies
    { last_response := "", echoed := [], debugged := [] }
  unfold send_command_drain
  rw [h]
  refine ⟨by simp, rfl, by simp, ?_, ?_⟩
  · intro e he
    simp only [List.nil_append] at he
    exact nonDebugLines_not_debug replies e he
  · exact lastOrDefault_prop (nonDebugLines replies) "" (by decide)
      (nonDebugLines_not_debug replies)

/-- C7: `send_command` clears the retained response before draining (line
118 of the source), so for every prior state the retained response after
the drain depends only on the drained replies, and with no available reply
data it is the empty string (against which any later EXPECT is evaluated). -/
theorem C7_response_cleared (st : RunState) (command : String) :
    (send_command st [] command).1.last_response = "" ∧
    (∀ replies, (send_command st replies command).1.last_response =
      (send_command_drain replies).last_response) :=
  ⟨rfl, fun _ => rfl⟩

/-- C8: a script line consisting only of whitespace and/or a comment (all
characters before the first `#` are whitespace) advances the line counter
by one and does nothing else: the step action is `skip` (nothing is written
to the transport), the executed-command counter, the variable store and the
retained response are unchanged. -/
theorem C8_blank_comment_frame (rm : String → String → ReMatch)
    (replies : List String) (st : RunState) (line : String)
    (h : ∀ c ∈ line.data.takeWhile (fun c => !(c == '#')),
      isPySpace c = true) :
    execStep rm replies st line =
      ({ st with line_number := st.line_number + 1 }, StepAction.skip) := by
  unfold execStep
  by_cases hhash : '#' ∈ line.data
  case neg =>
    have htw : line.data.takeWhile (fun c => !(c == '#')) = line.data :=
      takeWhile_all (fun x hx => by
        have hne : (x == '#') = false :=
          beq_eq_false_iff_ne.mpr (fun hxe => hhash (hxe ▸ hx))
        simp [hne])
    have hall : ∀ c ∈ line.data, isPySpace c = true := by
      intro c hcline
      apply h
      rw [htw]
      exact hcline
    have hstrip : pyStrip line = "" := by
      unfold pyStrip
      rw [pyStripList_all_space hall]
    have hparse : parse_line line = none := by
      unfold parse_line
      simp [hstrip]
    rw [hparse]
  case pos =>
    have hsplit_td := List.takeWhile_append_dropWhile
      (p := fun c => !(c == '#')) (l := line.data)
    obtain ⟨d, hd⟩ : ∃ d,
        line.data.dropWhile (fun c => !(c == '#')) = '#' :: d := by
      cases hdw : line.data.dropWhile (fun c => !(c == '#')) with
      | nil =>
        exfalso
        have htw : line.data.takeWhile (fun c => !(c == '#')) = line.data := by
          have h2 := hsplit_td
          rw [hdw, List.append_nil] at h2
          exact h2
        have hp := List.mem_takeWhile_imp (htw.symm ▸ hhash)
        simp at hp
      | cons x d =>
        have hx := dropWhile_head_false
          (p := fun c => !(c == '#')) (l := line.data) hdw
        have hxh : x = '#' := by
          have hx' : (!(x == '#')) = false := hx
          have hxx : (x == '#') = true := by
            cases hxeq : x == '#'
            · rw [hxeq] at hx'; simp at hx'
            · rfl
          exact beq_iff_eq.mp hxx
        exact ⟨d, by rw [hxh]⟩
    have hline : line.data =
        line.data.takeWhile (fun c => !(c == '#')) ++ '#' :: d := by
      rw [← hd, hsplit_td]
    have hstripline : pyStripList line.data = '#' :: rstripList d := by
      unfold pyStripList
      rw [hline, dropWhile_append_all _ h, List.dropWhile_cons,
        if_neg (by decide)]
      exact rstrip_cons_of_not_space d (by decide)
    have hne : pyStrip line ≠ "" := by
      unfold pyStrip
      rw [hstripline]
      intro hcontra
      have hdata := congrArg String.data hcontra
      simp at hdata
    have hcont : pyContains (pyStrip line) '#' = true := by
      unfold pyContains pyStrip
      rw [mk_data, hstripline]
      simp [containsB]
    have hsf : splitFirst '#' (pyStrip line).data = ([], rstripList d) := by
      unfold pyStrip
      rw [mk_data, hstripline]
      simp [splitFirst]
    have hparse : parse_line line = some ("", pyStrip ⟨rstripList d⟩) := by
      show (if pyStrip line = "" then none
        else if pyContains (pyStrip line) '#' then
          some (pyStrip ⟨(splitFirst '#' (pyStrip line).data).1⟩,
            pyStrip ⟨(splitFirst '#' (pyStrip line).data).2⟩)
        else some (pyStrip line, "")) =
        some ("", pyStrip ⟨rstripList d⟩)
      rw [if_neg hne, if_pos hcont, hsf]
      rfl
    rw [hparse]
    simp

/-- Helper for the C8 witness: a concrete state with non-trivial fields. -/
def demoState : RunState :=
  { line_number := 4, executed_count := 2, vars := [("A", "1")],
    last_response := "OK" }

theorem C8_blank_comment_frame_witness :
    (∀ c ∈ ("   # a comment" : String).data.takeWhile
      (fun c => !(c == '#')), isPySpace c = true) ∧
    execStep rmDemo [] demoState "   # a comment" =
      ({ demoState with line_number := demoState.line_number + 1 },
        StepAction.skip) ∧
    (∀ c ∈ ("  " : String).data.takeWhile (fun c => !(c == '#')),
      isPySpace c = true) ∧
    execStep rmDemo [] demoState "  " =
      ({ demoState with line_number := demoState.line_number + 1 },
        StepAction.skip) :=
  ⟨by decide,
    C8_blank_comment_frame rmDemo [] demoState "   # a comment" (by decide),
    by decide,
    C8_blank_comment_frame rmDemo [] demoState "  " (by decide)⟩

/-- C9: on every exit path of `execute_commands` — normal completion,
file-not-found, transport error, unexpected error, and EXPECT failure
(`SystemExit`, which is not caught by the `except Exception` clauses but
still triggers the `finally` block) — the connection opened by `connect`
is closed exactly once, and the run never ends with the connection open;
when `connect` itself fails no connection was opened and none is closed.
The third conjunct instantiates the body outcome with an actual run of the
line loop over an arbitrary script. -/
theorem C9_transport_release (bodyExn : Option Exn)
    (rm : String → String → ReMatch) (replies : Nat → List String)
    (script : List String) :
    (execute_commands true bodyExn).1 =
      some { is_open := false, closes := 1 } ∧
    (execute_commands false bodyExn).1 = none ∧
    (execute_commands true
      (runLines rm replies initialRunState script).2).1 =
      some { is_open := false, closes := 1 } :=
  ⟨rfl, rfl, rfl⟩

/-- C10: a line of the form `=VALUE` (nothing before the first `=`) is
consumed as an assignment whose variable name is the empty string; a store
holding the empty-string name makes substitution insert the value at every
character boundary of the command — before each character and at the end —
following Python `str.replace` semantics for an empty pattern. -/
theorem C10_empty_name_assignment (vars : List (String × String))
    (b : String) :
    (handle_variable_assignment vars ⟨'=' :: b.data⟩).1 = true ∧
    (∃ value, (handle_variable_assignment vars ⟨'=' :: b.data⟩).2 =
      dictSet vars "" value) ∧
    (∀ (v cs : List Char),
      substitute_variables [("", ⟨v⟩)] ⟨cs⟩ =
        ⟨v ++ cs.flatMap (fun c => c :: v)⟩) := by
  have heq := hva_eq vars [] b.data (by simp)
  simp only [List.nil_append] at heq
  refine ⟨?_, ?_, fun v cs => rfl⟩
  · rw [heq]
  · rw [heq]
    exact ⟨_, rfl⟩

end RunCommands
